import Mathlib

/-!
Verification of the pmr-sandbox allocation framework.

This file gives a shallow embedding of the repository's core logic:

* `DebugMemoryResource` from `src/pmr_test.cpp` — counters are `std::size_t`
  (unsigned 64-bit, modular); modelled by `DebugState` / `do_allocate_state` /
  `do_deallocate_state` with explicit `% 2^64`.
* `DebugMemoryResource` from `src/pmr_eigen_test.cpp` — counters are `int`
  (signed 32-bit); modelled by `IDebugState` with a signed 32-bit wrap.
* The global registry from `src/eigen_memory_resource.cpp` — a single mutable
  slot holding a possibly-null resource pointer, initialized to the system
  default resource; modelled by `RegistryState`.
* The Eigen configuration macros from `src/eigen_memory_resource.hpp`.
-/

/-- Word size of `std::size_t` on the target platform (64-bit). -/
def W : Nat := 2 ^ 64

/-- Counter state of `DebugMemoryResource` in `src/pmr_test.cpp`:
`std::size_t num_allocs, num_deallocs, curr_bytes, max_bytes`, all
zero-initialized.  `std::size_t` arithmetic is modular in `2^64`, so the
fields are naturals kept below `W` by explicit reduction. -/
structure DebugState where
  num_allocs : Nat
  num_deallocs : Nat
  curr_bytes : Nat
  max_bytes : Nat
deriving Repr, DecidableEq

/-- The freshly constructed decorator: all counters value-initialized to 0. -/
def initState : DebugState := ⟨0, 0, 0, 0⟩

/-- Counter updates of `DebugMemoryResource::do_allocate` (`pmr_test.cpp`
lines 26-32): `++num_allocs; curr_bytes += bytes;
if (curr_bytes > max_bytes) max_bytes = curr_bytes;` — all in `std::size_t`
(modular) arithmetic, performed before the upstream call. -/
def do_allocate_state (s : DebugState) (bytes : Nat) : DebugState :=
  let na := (s.num_allocs + 1) % W
  let cb := (s.curr_bytes + bytes) % W
  let mb := if cb > s.max_bytes then cb else s.max_bytes
  ⟨na, s.num_deallocs, cb, mb⟩

/-- Counter updates of `DebugMemoryResource::do_deallocate` (`pmr_test.cpp`
lines 34-39): `++num_deallocs; curr_bytes -= bytes;` in `std::size_t`
arithmetic; subtraction is modular, so underflow wraps around `2^64`. -/
def do_deallocate_state (s : DebugState) (bytes : Nat) : DebugState :=
  ⟨s.num_allocs, (s.num_deallocs + 1) % W,
    (s.curr_bytes + (W - bytes % W)) % W, s.max_bytes⟩

/-- `DebugMemoryResource::do_allocate` with its upstream resource modelled as
an oracle `upstream : bytes → alignment → Except ε π` (a C++ call that either
returns a pointer or throws).  The method mutates the counters, then evaluates
`upstream->allocate(bytes, alignment)` and returns its result; a thrown
exception propagates out of `do_allocate` with the counter mutations already
applied (they are not rolled back).  The middle component records the list of
calls forwarded to upstream, in order. -/
def do_allocate (ε π : Type) (upstream : Nat → Nat → Except ε π)
    (s : DebugState) (bytes alignment : Nat) :
    DebugState × List (Nat × Nat) × Except ε π :=
  (do_allocate_state s bytes, [(bytes, alignment)], upstream bytes alignment)

/-- One call observed by a debug decorator: either
`allocate(bytes, alignment)` or `deallocate(ptr, bytes, alignment)` (the
pointer plays no role in the counter logic). -/
inductive Event where
  | alloc (bytes alignment : Nat)
  | dealloc (bytes alignment : Nat)
deriving Repr, DecidableEq

/-- Dispatch of one call to the decorator's methods (`pmr_test.cpp` model). -/
def step (s : DebugState) : Event → DebugState
  | .alloc b _ => do_allocate_state s b
  | .dealloc b _ => do_deallocate_state s b

/-- The decorator state after a sequence of calls on a fresh instance. -/
def run (l : List Event) : DebugState := l.foldl step initState

/-- Bytes requested by an allocate call (0 for a deallocate). -/
def allocSize : Event → Nat
  | .alloc b _ => b
  | .dealloc _ _ => 0

/-- Bytes released by a deallocate call (0 for an allocate). -/
def deallocSize : Event → Nat
  | .alloc _ _ => 0
  | .dealloc b _ => b

/-- Sum of sizes passed to `allocate` over a call sequence. -/
def sumAlloc (l : List Event) : Nat := (l.map allocSize).sum

/-- Sum of sizes passed to `deallocate` over a call sequence. -/
def sumDealloc (l : List Event) : Nat := (l.map deallocSize).sum

/-- Whether a call is an allocate. -/
def isAlloc : Event → Bool
  | .alloc _ _ => true
  | .dealloc _ _ => false

/-- Number of allocate calls in a sequence. -/
def countAllocs (l : List Event) : Nat := (l.filter isAlloc).length

/-- Number of deallocate calls in a sequence. -/
def countDeallocs (l : List Event) : Nat := (l.filter (fun e => !isAlloc e)).length

/-- The running difference after `n` calls: bytes allocated minus bytes
deallocated over the length-`n` prefix, as an integer. -/
def runningDiff (l : List Event) (n : Nat) : Int :=
  (sumAlloc (l.take n) : Int) - (sumDealloc (l.take n) : Int)

/-- The same running difference in truncated natural subtraction; agrees with
`runningDiff` on prefixes that never deallocate more than was allocated. -/
def runningDiffN (l : List Event) (n : Nat) : Nat :=
  sumAlloc (l.take n) - sumDealloc (l.take n)

/-- Maximum over all prefixes (the empty one included) of the running
difference of bytes allocated minus bytes deallocated. -/
def peakZ (l : List Event) : Int :=
  ((List.range (l.length + 1)).map (runningDiff l)).foldl max 0

/-- Natural-number version of `peakZ` (truncated subtraction). -/
def peakN (l : List Event) : Nat :=
  ((List.range (l.length + 1)).map (runningDiffN l)).foldl max 0

/-- A call sequence never deallocates more bytes than were allocated in any
prefix. -/
def noUnderflow (l : List Event) : Prop :=
  ∀ n, n ≤ l.length → sumDealloc (l.take n) ≤ sumAlloc (l.take n)

instance (l : List Event) : Decidable (noUnderflow l) :=
  Nat.decidableBallLE _ _

/-- The usage contract, checked with a multiset of outstanding allocation
sizes: every deallocate must match (by size) an allocate made earlier and not
already matched. -/
def contractOkAux : List Nat → List Event → Bool
  | _, [] => true
  | avail, .alloc b _ :: rest => contractOkAux (b :: avail) rest
  | avail, .dealloc b _ :: rest =>
      if b ∈ avail then contractOkAux (avail.erase b) rest else false

/-- A call sequence obeys the usage contract: each deallocate matches a prior
unmatched allocate of the same size. -/
def contractOk (l : List Event) : Bool := contractOkAux [] l

/-! ### The `int`-counter variant (`src/pmr_eigen_test.cpp`) -/

/-- Reduction of an integer into the value range of a 32-bit `int`,
`[-2^31, 2^31)`.  `curr_bytes += bytes` with `int curr_bytes` and
`std::size_t bytes` converts through unsigned arithmetic and back, which is
exactly addition modulo `2^32` re-read as a signed 32-bit value. -/
def wrap32 (z : Int) : Int := (z + 2 ^ 31) % 2 ^ 32 - 2 ^ 31

/-- Counter state of `DebugMemoryResource` in `src/pmr_eigen_test.cpp`
(lines 19-22): `int num_allocs, num_deallocs, curr_bytes, max_bytes`, all
zero-initialized. -/
structure IDebugState where
  num_allocs : Int
  num_deallocs : Int
  curr_bytes : Int
  max_bytes : Int
deriving Repr, DecidableEq

/-- Fresh `pmr_eigen_test.cpp` decorator: all counters 0. -/
def i_init : IDebugState := ⟨0, 0, 0, 0⟩

/-- `do_allocate` counter updates of the `int`-counter decorator
(`pmr_eigen_test.cpp` lines 27-33); the comparison `curr_bytes > max_bytes`
is a signed `int` comparison. -/
def i_allocate (s : IDebugState) (bytes : Nat) : IDebugState :=
  let na := wrap32 (s.num_allocs + 1)
  let cb := wrap32 (s.curr_bytes + bytes)
  let mb := if cb > s.max_bytes then cb else s.max_bytes
  ⟨na, s.num_deallocs, cb, mb⟩

/-- `do_deallocate` counter updates of the `int`-counter decorator
(`pmr_eigen_test.cpp` lines 35-40). -/
def i_deallocate (s : IDebugState) (bytes : Nat) : IDebugState :=
  ⟨s.num_allocs, wrap32 (s.num_deallocs + 1), wrap32 (s.curr_bytes - bytes),
    s.max_bytes⟩

/-- Dispatch of one call to the `int`-counter decorator. -/
def i_step (s : IDebugState) : Event → IDebugState
  | .alloc b _ => i_allocate s b
  | .dealloc b _ => i_deallocate s b

/-- The `int`-counter decorator state after a call sequence on a fresh
instance. -/
def i_run (l : List Event) : IDebugState := l.foldl i_step i_init

/-! ### Resource identity (`do_is_equal`) -/

/-- A resource instance is identified by its address: `do_is_equal` compares
`this` against `&other`, so only the instance's identity matters. -/
structure ResourceInstance where
  addr : Nat
deriving Repr, DecidableEq

/-- `DebugMemoryResource::do_is_equal` (`pmr_test.cpp` lines 41-44,
`pmr_eigen_test.cpp` lines 42-45): `return this == &other;`. -/
def do_is_equal (self other : ResourceInstance) : Bool :=
  self.addr == other.addr

/-! ### Global registry (`src/eigen_memory_resource.cpp`) -/

/-- A possibly-null pointer to a memory resource, identified by address;
`none` is the null pointer. -/
def ResourcePtr : Type := Option Nat
deriving instance DecidableEq for ResourcePtr

/-- The (non-null) pointer returned by `std::pmr::get_default_resource()`
during static initialization of the registry. -/
def system_default_resource : ResourcePtr := some 0

/-- The anonymous `state` struct of `eigen_memory_resource.cpp` (lines 8-11):
a single mutable slot `std::pmr::memory_resource* memory`. -/
structure RegistryState where
  memory : ResourcePtr
deriving DecidableEq

/-- Static initialization of the slot:
`memory{std::pmr::get_default_resource()}`. -/
def registry_init : RegistryState := ⟨system_default_resource⟩

/-- `dr::get_eigen_memory_resource` (line 15): `return state.memory;`. -/
def get_eigen_memory_resource (s : RegistryState) : ResourcePtr := s.memory

set_option linter.unusedVariables false in
/-- `dr::set_eigen_memory_resource` (line 16): `state.memory = memory;`.
The previous slot contents are ignored entirely. -/
def set_eigen_memory_resource (s : RegistryState) (m : ResourcePtr) :
    RegistryState := ⟨m⟩

/-- Registry state after a sequence of `set_eigen_memory_resource` calls
starting from static initialization (`get` calls do not change the state). -/
def run_registry (sets : List ResourcePtr) : RegistryState :=
  sets.foldl set_eigen_memory_resource registry_init

/-! ### Eigen configuration (`src/eigen_memory_resource.hpp`) -/

/-- The two configuration macros the header defines before any Eigen header
is included (lines 11-12). -/
structure EigenConfig where
  memory_resource_defined : Bool
  no_malloc_defined : Bool
deriving DecidableEq

/-- `eigen_memory_resource.hpp` defines both
`EIGEN_MEMORY_RESOURCE dr::get_eigen_memory_resource()` (line 11) and
`EIGEN_NO_MALLOC` (line 12). -/
def repo_eigen_config : EigenConfig := ⟨true, true⟩

/-- Outcome of one internal Eigen allocation site. -/
inductive AllocOutcome where
  | viaResource
  | abort
  | heapFallback
deriving DecidableEq

/-- Modelled from the spec: Eigen's internal allocation sites are in the
numerics library, not in this repository's sources.  Per the spec and the
header's own comment (`// Aborts if Eigen tries to allocate without our
resource`), an allocation routed through the active resource
(`EIGEN_MEMORY_RESOURCE`, i.e. `dr::get_eigen_memory_resource()`) proceeds;
one that bypasses it aborts when `EIGEN_NO_MALLOC` is defined and otherwise
falls back to the unmanaged heap. -/
def eigen_alloc_site (cfg : EigenConfig) (routesThroughActiveResource : Bool) :
    AllocOutcome :=
  if routesThroughActiveResource then .viaResource
  else if cfg.no_malloc_defined then .abort
  else .heapFallback

/-! ### Helper lemmas about call sequences -/

lemma sumAlloc_append (l₁ l₂ : List Event) :
    sumAlloc (l₁ ++ l₂) = sumAlloc l₁ + sumAlloc l₂ := by
  simp [sumAlloc]

lemma sumDealloc_append (l₁ l₂ : List Event) :
    sumDealloc (l₁ ++ l₂) = sumDealloc l₁ + sumDealloc l₂ := by
  simp [sumDealloc]

lemma countAllocs_append (l₁ l₂ : List Event) :
    countAllocs (l₁ ++ l₂) = countAllocs l₁ + countAllocs l₂ := by
  simp [countAllocs]

lemma countDeallocs_append (l₁ l₂ : List Event) :
    countDeallocs (l₁ ++ l₂) = countDeallocs l₁ + countDeallocs l₂ := by
  simp [countDeallocs]

lemma countAllocs_le_length (l : List Event) : countAllocs l ≤ l.length :=
  List.length_filter_le _ _

lemma countDeallocs_le_length (l : List Event) : countDeallocs l ≤ l.length :=
  List.length_filter_le _ _

lemma run_snoc (l : List Event) (e : Event) : run (l ++ [e]) = step (run l) e := by
  simp [run, List.foldl_append]

lemma noUnderflow_final (l : List Event) (hU : noUnderflow l) :
    sumDealloc l ≤ sumAlloc l := by
  have h := hU l.length le_rfl
  simpa using h

lemma noUnderflow_append_left (l : List Event) (e : Event)
    (hU : noUnderflow (l ++ [e])) : noUnderflow l := by
  intro n hn
  have h := hU n (by simp; omega)
  rwa [List.take_append_of_le_length hn] at h

lemma noUnderflow_take (l : List Event) (n : Nat) (hU : noUnderflow l) :
    noUnderflow (l.take n) := by
  intro m hm
  rw [List.length_take] at hm
  have hmn : m ≤ n := le_trans hm (Nat.min_le_left _ _)
  have hml : m ≤ l.length := le_trans hm (Nat.min_le_right _ _)
  rw [List.take_take, Nat.min_eq_left hmn]
  exact hU m hml

lemma sumAlloc_take_le (l : List Event) (n : Nat) :
    sumAlloc (l.take n) ≤ sumAlloc l := by
  conv_rhs => rw [← List.take_append_drop n l]
  rw [sumAlloc_append]
  omega

lemma le_foldl_max (xs : List Nat) (b : Nat) : b ≤ xs.foldl max b := by
  induction xs generalizing b with
  | nil => exact le_rfl
  | cons x xs ih => exact le_trans (Nat.le_max_left b x) (ih (max b x))

lemma foldl_max_le_mem (xs : List Nat) (b a : Nat) (h : a ∈ xs) :
    a ≤ xs.foldl max b := by
  induction xs generalizing b with
  | nil => cases h
  | cons x xs ih =>
    rcases List.mem_cons.mp h with rfl | h
    · exact le_trans (Nat.le_max_right b a) (le_foldl_max xs (max b a))
    · exact ih (max b x) h

lemma runningDiffN_snoc_take (l : List Event) (e : Event) (n : Nat)
    (hn : n ≤ l.length) : runningDiffN (l ++ [e]) n = runningDiffN l n := by
  unfold runningDiffN
  rw [List.take_append_of_le_length hn]

lemma runningDiffN_length (l : List Event) :
    runningDiffN l l.length = sumAlloc l - sumDealloc l := by
  unfold runningDiffN
  rw [List.take_length]

lemma peakN_snoc (l : List Event) (e : Event) :
    peakN (l ++ [e]) =
      max (peakN l) (sumAlloc (l ++ [e]) - sumDealloc (l ++ [e])) := by
  unfold peakN
  have hlen : (l ++ [e]).length + 1 = (l.length + 1) + 1 := by simp
  rw [hlen, List.range_succ, List.map_append, List.foldl_append]
  have hmap : (List.range (l.length + 1)).map (runningDiffN (l ++ [e])) =
      (List.range (l.length + 1)).map (runningDiffN l) := by
    apply List.map_congr_left
    intro n hn
    exact runningDiffN_snoc_take l e n (by
      have := List.mem_range.mp hn; omega)
  rw [hmap]
  have hfull : runningDiffN (l ++ [e]) (l.length + 1) =
      sumAlloc (l ++ [e]) - sumDealloc (l ++ [e]) := by
    unfold runningDiffN
    have : l.length + 1 = (l ++ [e]).length := by simp
    rw [this, List.take_length]
  simp [hfull]

lemma finalDiff_le_peakN (l : List Event) :
    sumAlloc l - sumDealloc l ≤ peakN l := by
  have hm : runningDiffN l l.length ∈
      (List.range (l.length + 1)).map (runningDiffN l) :=
    List.mem_map_of_mem _ (List.mem_range.mpr (Nat.lt_succ_self _))
  rw [runningDiffN_length] at hm
  exact foldl_max_le_mem _ 0 _ hm

/-- Specification of a run of the `std::size_t`-counter decorator on a
sequence that never deallocates more than was allocated and whose total
allocation stays below `2^64`: `curr_bytes` is the running difference and
`max_bytes` its prefix maximum. -/
lemma run_spec (l : List Event) (hU : noUnderflow l) (hA : sumAlloc l < W) :
    (run l).curr_bytes = sumAlloc l - sumDealloc l ∧
    (run l).max_bytes = peakN l := by
  induction l using List.reverseRecOn with
  | nil =>
    constructor
    · rfl
    · decide
  | append_singleton l e ih =>
    have hUl : noUnderflow l := noUnderflow_append_left l e hU
    have hAl : sumAlloc l < W := by
      have := sumAlloc_append l [e]; omega
    obtain ⟨hc, hm⟩ := ih hUl hAl
    have hDl : sumDealloc l ≤ sumAlloc l := noUnderflow_final l hUl
    have hfin : sumDealloc (l ++ [e]) ≤ sumAlloc (l ++ [e]) :=
      noUnderflow_final _ hU
    rw [run_snoc, peakN_snoc]
    cases e with
    | alloc b a =>
      have hsa : sumAlloc (l ++ [.alloc b a]) = sumAlloc l + b := by
        simp [sumAlloc_append, sumAlloc, allocSize]
      have hsd : sumDealloc (l ++ [.alloc b a]) = sumDealloc l := by
        simp [sumDealloc_append, sumDealloc, deallocSize]
      have hcb : (run l).curr_bytes + b = sumAlloc l + b - sumDealloc l := by
        omega
      have hlt : sumAlloc l + b - sumDealloc l < W := by omega
      simp only [step, do_allocate_state, hcb, Nat.mod_eq_of_lt hlt, hm,
        hsa, hsd]
      refine ⟨trivial, ?_⟩
      split <;> omega
    | dealloc b a =>
      have hsa : sumAlloc (l ++ [.dealloc b a]) = sumAlloc l := by
        simp [sumAlloc_append, sumAlloc, allocSize]
      have hsd : sumDealloc (l ++ [.dealloc b a]) = sumDealloc l + b := by
        simp [sumDealloc_append, sumDealloc, deallocSize]
      have hb : sumDealloc l + b ≤ sumAlloc l := by omega
      have hbW : b % W = b := Nat.mod_eq_of_lt (by omega)
      have hsplit : (run l).curr_bytes + (W - b % W) =
          W + (sumAlloc l - (sumDealloc l + b)) := by
        rw [hbW]; omega
      have hlt : sumAlloc l - (sumDealloc l + b) < W := by omega
      have hpk : sumAlloc l - sumDealloc l ≤ peakN l := finalDiff_le_peakN l
      simp only [step, do_deallocate_state, hsplit, Nat.add_mod_left,
        Nat.mod_eq_of_lt hlt, hm, hsa, hsd]
      exact ⟨trivial, by omega⟩

/-- The call counters of the `std::size_t` decorator count the allocate and
deallocate calls exactly, as long as the sequence is shorter than `2^64`. -/
lemma run_counts (l : List Event) (hL : l.length < W) :
    (run l).num_allocs = countAllocs l ∧
    (run l).num_deallocs = countDeallocs l := by
  induction l using List.reverseRecOn with
  | nil => exact ⟨rfl, rfl⟩
  | append_singleton l e ih =>
    have hLl : l.length < W := by
      rw [List.length_append] at hL; omega
    obtain ⟨h1, h2⟩ := ih hLl
    have hca : countAllocs l ≤ l.length := countAllocs_le_length l
    have hcd : countDeallocs l ≤ l.length := countDeallocs_le_length l
    have hlen : (l ++ [e]).length = l.length + 1 := by simp
    rw [run_snoc]
    cases e with
    | alloc b a =>
      have hc1 : countAllocs (l ++ [.alloc b a]) = countAllocs l + 1 := by
        simp [countAllocs_append, countAllocs, isAlloc]
      have hc2 : countDeallocs (l ++ [.alloc b a]) = countDeallocs l := by
        simp [countDeallocs_append, countDeallocs, isAlloc]
      have hmod : (countAllocs l + 1) % W = countAllocs l + 1 :=
        Nat.mod_eq_of_lt (by omega)
      simp only [step, do_allocate_state, h1, h2, hc1, hc2, hmod]
      exact ⟨trivial, trivial⟩
    | dealloc b a =>
      have hc1 : countAllocs (l ++ [.dealloc b a]) = countAllocs l := by
        simp [countAllocs_append, countAllocs, isAlloc]
      have hc2 : countDeallocs (l ++ [.dealloc b a]) = countDeallocs l + 1 := by
        simp [countDeallocs_append, countDeallocs, isAlloc]
      have hmod : (countDeallocs l + 1) % W = countDeallocs l + 1 :=
        Nat.mod_eq_of_lt (by omega)
      simp only [step, do_deallocate_state, h1, h2, hc1, hc2, hmod]
      exact ⟨trivial, trivial⟩

lemma sumAlloc_cons (e : Event) (l : List Event) :
    sumAlloc (e :: l) = allocSize e + sumAlloc l := by
  simp [sumAlloc]

lemma sumDealloc_cons (e : Event) (l : List Event) :
    sumDealloc (e :: l) = deallocSize e + sumDealloc l := by
  simp [sumDealloc]

/-- Every prefix of a contract-obeying sequence (relative to a multiset
`avail` of still-outstanding allocation sizes) deallocates at most
`avail.sum` plus what the prefix itself allocates. -/
lemma contractOkAux_sums (l : List Event) :
    ∀ (avail : List Nat), contractOkAux avail l = true →
      ∀ n, sumDealloc (l.take n) ≤ avail.sum + sumAlloc (l.take n) := by
  induction l with
  | nil => intro avail _ n; simp [sumDealloc]
  | cons e rest ih =>
    intro avail h n
    cases n with
    | zero => simp [sumDealloc]
    | succ n =>
      rw [List.take_succ_cons]
      cases e with
      | alloc b a =>
        have h' : contractOkAux (b :: avail) rest = true := by
          simpa [contractOkAux] using h
        have hrec := ih (b :: avail) h' n
        rw [sumDealloc_cons, sumAlloc_cons]
        simp only [allocSize, deallocSize, List.sum_cons] at hrec ⊢
        omega
      | dealloc b a =>
        have hmem : b ∈ avail := by
          by_contra hb
          simp [contractOkAux, hb] at h
        have h' : contractOkAux (avail.erase b) rest = true := by
          simpa [contractOkAux, hmem] using h
        have hsum : avail.sum = b + (avail.erase b).sum := by
          have hperm : avail.Perm (b :: avail.erase b) :=
            List.perm_cons_erase hmem

          rw [hperm.sum_eq]
          simp
        have hrec := ih (avail.erase b) h' n
        rw [sumDealloc_cons, sumAlloc_cons]
        simp only [allocSize, deallocSize] at hrec ⊢
        omega

/-- A sequence obeying the usage contract never deallocates more than was
allocated in any prefix. -/
lemma contract_noUnderflow (l : List Event) (h : contractOk l = true) :
    noUnderflow l := by
  intro n _
  have hs := contractOkAux_sums l [] h n
  simpa using hs

/-! ### Spec of the `int`-counter decorator -/

lemma i_run_snoc (l : List Event) (e : Event) :
    i_run (l ++ [e]) = i_step (i_run l) e := by
  simp [i_run, List.foldl_append]

lemma wrap32_eq_self (z : Int) (h1 : -(2 ^ 31) ≤ z) (h2 : z < 2 ^ 31) :
    wrap32 z = z := by
  unfold wrap32
  rw [Int.emod_eq_of_lt (by omega) (by omega)]
  omega

/-- `curr_bytes` of the `int`-counter decorator on sequences that never
deallocate more than was allocated and whose total allocation stays below
`2^31` (so the signed 32-bit counter never wraps). -/
lemma i_run_spec (l : List Event) (hU : noUnderflow l)
    (hA : sumAlloc l < 2 ^ 31) :
    (i_run l).curr_bytes = (sumAlloc l : Int) - (sumDealloc l : Int) := by
  induction l using List.reverseRecOn with
  | nil => rfl
  | append_singleton l e ih =>
    have hUl : noUnderflow l := noUnderflow_append_left l e hU
    have hAl : sumAlloc l < 2 ^ 31 := by
      have := sumAlloc_append l [e]; omega
    have hc := ih hUl hAl
    have hDl : sumDealloc l ≤ sumAlloc l := noUnderflow_final l hUl
    have hfin : sumDealloc (l ++ [e]) ≤ sumAlloc (l ++ [e]) :=
      noUnderflow_final _ hU
    rw [i_run_snoc]
    cases e with
    | alloc b a =>
      have hsa : sumAlloc (l ++ [.alloc b a]) = sumAlloc l + b := by
        simp [sumAlloc_append, sumAlloc, allocSize]
      have hsd : sumDealloc (l ++ [.alloc b a]) = sumDealloc l := by
        simp [sumDealloc_append, sumDealloc, deallocSize]
      have hwrap : wrap32 ((i_run l).curr_bytes + (b : Int)) =
          (i_run l).curr_bytes + (b : Int) := by
        apply wrap32_eq_self <;> rw [hc] <;> omega
      show wrap32 ((i_run l).curr_bytes + (b : Int)) = _
      rw [hwrap, hc, hsa, hsd]
      push_cast
      ring
    | dealloc b a =>
      have hsa : sumAlloc (l ++ [.dealloc b a]) = sumAlloc l := by
        simp [sumAlloc_append, sumAlloc, allocSize]
      have hsd : sumDealloc (l ++ [.dealloc b a]) = sumDealloc l + b := by
        simp [sumDealloc_append, sumDealloc, deallocSize]
      have hb : sumDealloc l + b ≤ sumAlloc l := by omega
      have hwrap : wrap32 ((i_run l).curr_bytes - (b : Int)) =
          (i_run l).curr_bytes - (b : Int) := by
        apply wrap32_eq_self <;> rw [hc] <;> omega
      show wrap32 ((i_run l).curr_bytes - (b : Int)) = _
      rw [hwrap, hc, hsa, hsd]
      push_cast
      ring

/-! ### Bridging the peak to integer form -/

lemma cast_foldl_max (xs : List Nat) (b : Nat) :
    ((xs.foldl max b : Nat) : Int) =
      (xs.map (Nat.cast : Nat → Int)).foldl max (b : Int) := by
  induction xs generalizing b with
  | nil => rfl
  | cons x xs ih =>
    rw [List.foldl_cons, List.map_cons, List.foldl_cons, ih, Nat.cast_max]

lemma peakZ_eq_peakN (l : List Event) (hU : noUnderflow l) :
    peakZ l = ((peakN l : Nat) : Int) := by
  unfold peakZ peakN
  rw [cast_foldl_max, List.map_map, Nat.cast_zero]
  apply congrArg (List.foldl max 0)
  apply List.map_congr_left
  intro n hn
  have hn' : n ≤ l.length := by
    have := List.mem_range.mp hn; omega
  have hle := hU n hn'
  simp only [Function.comp_apply, runningDiff, runningDiffN]
  omega

/-! ### Claim theorems -/

/-- C1, counterexample: the claimed accounting identity fails for the call
sequence consisting of a single `deallocate(ptr, 5, 8)`.  The `std::size_t`
counter `curr_bytes` wraps to `2^64 - 5`, while the sum of allocated sizes
minus the sum of deallocated sizes is `-5` and the maximum prefix running
difference is `0`. -/
theorem C1_counterexample :
    ¬ (((run [Event.dealloc 5 8]).curr_bytes : Int) =
          (sumAlloc [Event.dealloc 5 8] : Int) -
            (sumDealloc [Event.dealloc 5 8] : Int) ∧
        ((run [Event.dealloc 5 8]).max_bytes : Int) =
          peakZ [Event.dealloc 5 8]) := by
  decide

/-- C1 (amended): for every finite sequence of allocate/deallocate calls
through the Debug Decorator in which no prefix deallocates more bytes than
were allocated and the total bytes allocated stay below `2^64`,
`curr_bytes` after the sequence equals the sum of sizes passed to allocate
minus the sum of sizes passed to deallocate, and `max_bytes` equals the
maximum over all prefixes of that running difference. -/
theorem C1_debug_accounting (l : List Event) (hU : noUnderflow l)
    (hA : sumAlloc l < W) :
    ((run l).curr_bytes : Int) =
      (sumAlloc l : Int) - (sumDealloc l : Int) ∧
    ((run l).max_bytes : Int) = peakZ l := by
  obtain ⟨hc, hm⟩ := run_spec l hU hA
  have hD : sumDealloc l ≤ sumAlloc l := noUnderflow_final l hU
  constructor
  · rw [hc]; omega
  · rw [hm, peakZ_eq_peakN l hU]

/-- Witness for C1: the amended theorem evaluated on the concrete sequence
`[allocate 10, deallocate 4, allocate 3]`. -/
theorem C1_debug_accounting_witness :
    noUnderflow [Event.alloc 10 8, Event.dealloc 4 8, Event.alloc 3 8] ∧
    sumAlloc [Event.alloc 10 8, Event.dealloc 4 8, Event.alloc 3 8] < W ∧
    (((run [Event.alloc 10 8, Event.dealloc 4 8, Event.alloc 3 8]).curr_bytes : Int) =
        (sumAlloc [Event.alloc 10 8, Event.dealloc 4 8, Event.alloc 3 8] : Int) -
          (sumDealloc [Event.alloc 10 8, Event.dealloc 4 8, Event.alloc 3 8] : Int) ∧
      ((run [Event.alloc 10 8, Event.dealloc 4 8, Event.alloc 3 8]).max_bytes : Int) =
        peakZ [Event.alloc 10 8, Event.dealloc 4 8, Event.alloc 3 8]) :=
  ⟨by decide, by decide, C1_debug_accounting _ (by decide) (by decide)⟩

/-- C2: if `set_eigen_memory_resource` has never been called, then
`get_eigen_memory_resource()` returns the system-default resource obtained
from `std::pmr::get_default_resource()` at static initialization. -/
theorem C2_default_when_never_set :
    get_eigen_memory_resource (run_registry []) = system_default_resource :=
  rfl

/-- C3: after `set_eigen_memory_resource(r)` — no matter what sequence of
earlier `set` calls preceded it — `get_eigen_memory_resource()` returns
exactly `r` (and keeps returning it, since `get` reads the slot without
modifying any state, until another `set` call overwrites it); moreover `set`
stores its argument unconditionally, with no dependence on or validation of
the previous slot contents. -/
theorem C3_set_get_last_writer_wins :
    (∀ (pre : List ResourcePtr) (r : ResourcePtr),
        get_eigen_memory_resource (run_registry (pre ++ [r])) = r) ∧
    (∀ (s t : RegistryState) (r : ResourcePtr),
        set_eigen_memory_resource s r = set_eigen_memory_resource t r) := by
  constructor
  · intro pre r
    simp [run_registry, List.foldl_append, get_eigen_memory_resource,
      set_eigen_memory_resource]
  · intro s t r
    rfl

/-- C4: `do_is_equal` returns `true` exactly when the two Debug Decorator
instances are the same instance (pointer identity), hence it is reflexive
and symmetric. -/
theorem C4_is_equal_pointer_identity :
    ∀ a b : ResourceInstance,
      (do_is_equal a b = true ↔ a = b) ∧
      do_is_equal a a = true ∧
      do_is_equal a b = do_is_equal b a := by
  intro a b
  obtain ⟨x⟩ := a
  obtain ⟨y⟩ := b
  refine ⟨?_, ?_, ?_⟩
  · simp [do_is_equal]
  · simp [do_is_equal]
  · by_cases hxy : x = y
    · subst hxy; rfl
    · have h1 : (x == y) = false := by simpa using hxy
      have h2 : (y == x) = false := by simpa using Ne.symm hxy
      simp [do_is_equal, h1, h2]

/-- C5: `do_allocate` forwards exactly one call, with the same size and
alignment, to the upstream resource, and returns the upstream's result
unchanged.  Because the returned `Except` value is literally the upstream
call's value, an upstream failure (`Except.error`) reaches the caller
unchanged — never caught, retried, or substituted — so the decorated
resource's allocation results and failure modes coincide with the
upstream's. -/
theorem C5_allocate_forwards_unchanged (ε π : Type)
    (upstream : Nat → Nat → Except ε π) (s : DebugState)
    (bytes alignment : Nat) :
    (do_allocate ε π upstream s bytes alignment).2.1 = [(bytes, alignment)] ∧
    (do_allocate ε π upstream s bytes alignment).2.2 =
      upstream bytes alignment :=
  ⟨rfl, rfl⟩

/-- C6, counterexample: the sequence consisting of the single call
`allocate(2^31, 8)` obeys the usage contract (there is no deallocate at
all), yet the `int` counter `curr_bytes` of the `pmr_eigen_test.cpp`
decorator wraps to `-2^31 < 0`.  This also exhibits that the counter is a
32-bit `int`, not a signed 64-bit value as claimed. -/
theorem C6_counterexample :
    contractOk [Event.alloc (2 ^ 31) 8] = true ∧
    (i_run [Event.alloc (2 ^ 31) 8]).curr_bytes < 0 := by
  exact ⟨by decide, by decide⟩

/-- C6 (amended): `curr_bytes` is `std::size_t` (unsigned 64-bit) in
`pmr_test.cpp` and `int` (signed 32-bit) in `pmr_eigen_test.cpp`, not a
signed 64-bit value; for every call sequence obeying the usage contract
(each deallocate matches a prior allocate of the same size) whose total
allocated bytes stay below `2^31`, the `int` counter equals the running
difference at every point of the sequence and in particular never goes
negative. -/
theorem C6_curr_bytes_nonneg (l : List Event) (h : contractOk l = true)
    (hA : sumAlloc l < 2 ^ 31) (n : Nat) :
    0 ≤ (i_run (l.take n)).curr_bytes ∧
    (i_run (l.take n)).curr_bytes =
      (sumAlloc (l.take n) : Int) - (sumDealloc (l.take n) : Int) := by
  have hU : noUnderflow l := contract_noUnderflow l h
  have hUt : noUnderflow (l.take n) := noUnderflow_take l n hU
  have hAt : sumAlloc (l.take n) < 2 ^ 31 :=
    lt_of_le_of_lt (sumAlloc_take_le l n) hA
  have hc := i_run_spec (l.take n) hUt hAt
  have hD : sumDealloc (l.take n) ≤ sumAlloc (l.take n) :=
    noUnderflow_final _ hUt
  exact ⟨by rw [hc]; omega, hc⟩

/-- Witness for C6: the amended theorem evaluated on
`[allocate 8, deallocate 8]` at the prefix of length 1. -/
theorem C6_curr_bytes_nonneg_witness :
    contractOk [Event.alloc 8 8, Event.dealloc 8 8] = true ∧
    sumAlloc [Event.alloc 8 8, Event.dealloc 8 8] < 2 ^ 31 ∧
    (0 ≤ (i_run ([Event.alloc 8 8, Event.dealloc 8 8].take 1)).curr_bytes ∧
      (i_run ([Event.alloc 8 8, Event.dealloc 8 8].take 1)).curr_bytes =
        (sumAlloc ([Event.alloc 8 8, Event.dealloc 8 8].take 1) : Int) -
          (sumDealloc ([Event.alloc 8 8, Event.dealloc 8 8].take 1) : Int)) :=
  ⟨by decide, by decide, C6_curr_bytes_nonneg _ (by decide) (by decide) 1⟩

/-- C7, counterexample: after the single call `deallocate(ptr, 1, 1)` the
`std::size_t` counter `curr_bytes` wraps to `2^64 - 1` while `max_bytes`
stays `0`, so "`peak_bytes_outstanding` is always at least
`current_bytes_outstanding`" fails for this sequence. -/
theorem C7_counterexample :
    ¬ ((run [Event.dealloc 1 1]).curr_bytes ≤
        (run [Event.dealloc 1 1]).max_bytes) := by
  decide

/-- C7 (amended): for every sequence of allocate/deallocate calls in which
no prefix deallocates more bytes than were allocated, with total allocated
bytes and sequence length below `2^64`: each allocate call increments
`num_allocs` by exactly 1 and leaves `num_deallocs` unchanged, each
deallocate call increments `num_deallocs` by exactly 1 and leaves
`num_allocs` unchanged (so both counters are monotonically non-decreasing
and are never reset within the sequence), `max_bytes` is monotonically
non-decreasing, and at every point `max_bytes` is at least `curr_bytes`. -/
theorem C7_counter_invariants (l : List Event) (hU : noUnderflow l)
    (hA : sumAlloc l < W) (hL : l.length < W) :
    (∀ n (h : n < l.length),
      (isAlloc (l.get ⟨n, h⟩) = true →
        (run (l.take (n + 1))).num_allocs = (run (l.take n)).num_allocs + 1 ∧
        (run (l.take (n + 1))).num_deallocs = (run (l.take n)).num_deallocs) ∧
      (isAlloc (l.get ⟨n, h⟩) = false →
        (run (l.take (n + 1))).num_deallocs =
          (run (l.take n)).num_deallocs + 1 ∧
        (run (l.take (n + 1))).num_allocs = (run (l.take n)).num_allocs) ∧
      (run (l.take n)).max_bytes ≤ (run (l.take (n + 1))).max_bytes) ∧
    (∀ n, (run (l.take n)).curr_bytes ≤ (run (l.take n)).max_bytes) := by
  have hprefix : ∀ n, noUnderflow (l.take n) ∧ sumAlloc (l.take n) < W ∧
      (l.take n).length < W := fun n =>
    ⟨noUnderflow_take l n hU, lt_of_le_of_lt (sumAlloc_take_le l n) hA,
      lt_of_le_of_lt (by rw [List.length_take]; omega) hL⟩
  constructor
  · intro n h
    obtain ⟨hUa, hAa, hLa⟩ := hprefix n
    obtain ⟨hUb, hAb, hLb⟩ := hprefix (n + 1)
    have htk : l.take n ++ [l.get ⟨n, h⟩] = l.take (n + 1) := by
      rw [← List.concat_eq_append]
      exact List.take_concat_get l n h
    obtain ⟨ca, da⟩ := run_counts (l.take n) hLa
    obtain ⟨cb, db⟩ := run_counts (l.take (n + 1)) hLb
    obtain ⟨-, ma⟩ := run_spec (l.take n) hUa hAa
    obtain ⟨-, mb⟩ := run_spec (l.take (n + 1)) hUb hAb
    refine ⟨?_, ?_, ?_⟩
    · intro hiA
      rw [List.get_eq_getElem] at hiA
      constructor
      · rw [cb, ca, ← htk, countAllocs_append]
        simp [countAllocs, List.filter, List.get_eq_getElem, hiA]
      · rw [db, da, ← htk, countDeallocs_append]
        simp [countDeallocs, List.filter, List.get_eq_getElem, hiA]
    · intro hiA
      rw [List.get_eq_getElem] at hiA
      constructor
      · rw [db, da, ← htk, countDeallocs_append]
        simp [countDeallocs, List.filter, List.get_eq_getElem, hiA]
      · rw [cb, ca, ← htk, countAllocs_append]
        simp [countAllocs, List.filter, List.get_eq_getElem, hiA]
    · rw [ma, mb, ← htk, peakN_snoc]
      exact Nat.le_max_left _ _
  · intro n
    obtain ⟨hUa, hAa, hLa⟩ := hprefix n
    obtain ⟨hc, hm⟩ := run_spec (l.take n) hUa hAa
    rw [hc, hm]
    exact finalDiff_le_peakN _

/-- Witness for C7: the amended theorem evaluated on the concrete sequence
`[allocate 4, deallocate 4]`. -/
theorem C7_counter_invariants_witness :
    noUnderflow [Event.alloc 4 8, Event.dealloc 4 8] ∧
    sumAlloc [Event.alloc 4 8, Event.dealloc 4 8] < W ∧
    [Event.alloc 4 8, Event.dealloc 4 8].length < W ∧
    ((∀ n (h : n < [Event.alloc 4 8, Event.dealloc 4 8].length),
      (isAlloc ([Event.alloc 4 8, Event.dealloc 4 8].get ⟨n, h⟩) = true →
        (run ([Event.alloc 4 8, Event.dealloc 4 8].take (n + 1))).num_allocs =
          (run ([Event.alloc 4 8, Event.dealloc 4 8].take n)).num_allocs + 1 ∧
        (run ([Event.alloc 4 8, Event.dealloc 4 8].take (n + 1))).num_deallocs =
          (run ([Event.alloc 4 8, Event.dealloc 4 8].take n)).num_deallocs) ∧
      (isAlloc ([Event.alloc 4 8, Event.dealloc 4 8].get ⟨n, h⟩) = false →
        (run ([Event.alloc 4 8, Event.dealloc 4 8].take (n + 1))).num_deallocs =
          (run ([Event.alloc 4 8, Event.dealloc 4 8].take n)).num_deallocs + 1 ∧
        (run ([Event.alloc 4 8, Event.dealloc 4 8].take (n + 1))).num_allocs =
          (run ([Event.alloc 4 8, Event.dealloc 4 8].take n)).num_allocs) ∧
      (run ([Event.alloc 4 8, Event.dealloc 4 8].take n)).max_bytes ≤
        (run ([Event.alloc 4 8, Event.dealloc 4 8].take (n + 1))).max_bytes) ∧
    (∀ n, (run ([Event.alloc 4 8, Event.dealloc 4 8].take n)).curr_bytes ≤
        (run ([Event.alloc 4 8, Event.dealloc 4 8].take n)).max_bytes)) :=
  ⟨by decide, by decide, by decide,
    C7_counter_invariants _ (by decide) (by decide) (by decide)⟩

/-- C8: with the configuration from `eigen_memory_resource.hpp` — both
`EIGEN_MEMORY_RESOURCE` (routing Eigen's allocations through
`dr::get_eigen_memory_resource()`) and `EIGEN_NO_MALLOC` defined before any
Eigen header — an Eigen allocation attempt that bypasses the active resource
aborts, and no allocation ever silently falls back to the unmanaged heap. -/
theorem C8_bypass_aborts :
    eigen_alloc_site repo_eigen_config false = AllocOutcome.abort ∧
    ∀ r : Bool,
      eigen_alloc_site repo_eigen_config r ≠ AllocOutcome.heapFallback := by
  constructor
  · rfl
  · intro r
    cases r <;> simp [eigen_alloc_site, repo_eigen_config]

/-- C9: `set_eigen_memory_resource` stores its argument verbatim, so after
`set_eigen_memory_resource(nullptr)` the getter returns the null pointer —
the slot does not fall back to the system-default resource once set. -/
theorem C9_null_is_stored :
    (∀ s : RegistryState,
        get_eigen_memory_resource (set_eigen_memory_resource s none) = none) ∧
    get_eigen_memory_resource (set_eigen_memory_resource registry_init none) ≠
      system_default_resource := by
  constructor
  · intro s
    rfl
  · decide

/-- C10: the Debug Decorator updates its counters before forwarding to
upstream: when the upstream `allocate` call fails, the failure propagates
while `num_allocs` has already been incremented, `curr_bytes` (and, via the
high-water update, possibly `max_bytes`) already increased by the requested
size, `num_deallocs` is untouched, and none of this is rolled back. -/
theorem C10_counters_survive_failure (ε π : Type)
    (upstream : Nat → Nat → Except ε π) (s : DebugState)
    (bytes alignment : Nat) (e : ε)
    (h : upstream bytes alignment = Except.error e) :
    (do_allocate ε π upstream s bytes alignment).2.2 = Except.error e ∧
    (do_allocate ε π upstream s bytes alignment).1.num_allocs =
      (s.num_allocs + 1) % W ∧
    (do_allocate ε π upstream s bytes alignment).1.curr_bytes =
      (s.curr_bytes + bytes) % W ∧
    (do_allocate ε π upstream s bytes alignment).1.max_bytes =
      (if (s.curr_bytes + bytes) % W > s.max_bytes then
        (s.curr_bytes + bytes) % W else s.max_bytes) ∧
    (do_allocate ε π upstream s bytes alignment).1.num_deallocs =
      s.num_deallocs :=
  ⟨h, rfl, rfl, rfl, rfl⟩

/-- Witness for C10: a concrete always-failing upstream, applied at
`allocate(4, 8)` on a fresh decorator. -/
theorem C10_counters_survive_failure_witness :
    (fun _ _ => (Except.error 0 : Except Nat Nat)) 4 8 =
      (Except.error 0 : Except Nat Nat) ∧
    ((do_allocate Nat Nat (fun _ _ => Except.error 0) initState 4 8).2.2 =
        Except.error 0 ∧
      (do_allocate Nat Nat (fun _ _ => Except.error 0) initState 4 8).1.num_allocs =
        (initState.num_allocs + 1) % W ∧
      (do_allocate Nat Nat (fun _ _ => Except.error 0) initState 4 8).1.curr_bytes =
        (initState.curr_bytes + 4) % W ∧
      (do_allocate Nat Nat (fun _ _ => Except.error 0) initState 4 8).1.max_bytes =
        (if (initState.curr_bytes + 4) % W > initState.max_bytes then
          (initState.curr_bytes + 4) % W else initState.max_bytes) ∧
      (do_allocate Nat Nat (fun _ _ => Except.error 0) initState 4 8).1.num_deallocs =
        initState.num_deallocs) :=
  ⟨rfl, C10_counters_survive_failure Nat Nat (fun _ _ => Except.error 0)
    initState 4 8 0 rfl⟩

/-! ### Concrete sanity checks of the embedding -/

example : run [.alloc 10 8, .dealloc 4 8] =
    { num_allocs := 1, num_deallocs := 1, curr_bytes := 6, max_bytes := 10 } := by
  decide

example : (run [.dealloc 5 8]).curr_bytes = 2 ^ 64 - 5 := by decide

example : (i_run [.alloc 10 8, .dealloc 4 8]).curr_bytes = 6 := by decide

example : contractOk [.alloc 10 8, .dealloc 10 4] = true := by decide

example : contractOk [.alloc 10 8, .dealloc 4 8] = false := by decide

example : peakZ [.alloc 10 8, .dealloc 4 8, .alloc 1 1] = 10 := by decide

example : get_eigen_memory_resource (run_registry [some 3, some 7]) = some 7 := by
  decide
